import Mathlib

/-!
Verification of the awesome-baby-dashboard server (`src/server.js`, current
version) against its natural-language specification.

The JavaScript handlers are shallowly embedded as pure Lean functions:
JSON collections become lists of records, JS objects used as string maps
become association lists (`List (String × String)`), HTTP statuses become
`Nat` codes, and file persistence becomes the returned collection value.
File-system and network side effects (reads/writes of the JSON files, image
files, rate limiting) are outside the embedded state; the handlers below
compute exactly the status, response body and the persisted collection
contents of the corresponding Express routes.
-/

set_option autoImplicit false

/-- Model of the `sanitize` helper of `server.js`:
`str.replace(/</g, '&lt;').replace(/>/g, '&gt;').trim()`.
The two global regex replaces are modelled character by character
(each `<` becomes `&lt;`, each `>` becomes `&gt;`), followed by a
whitespace trim at both ends. -/
def escChar (c : Char) : List Char :=
  if c = '<' then ['&', 'l', 't', ';']
  else if c = '>' then ['&', 'g', 't', ';']
  else [c]

/-- Drop leading whitespace characters (model of the ends of JS `trim`). -/
def dropWs : List Char → List Char
  | [] => []
  | c :: rest => if c.isWhitespace then dropWs rest else c :: rest

/-- JS `String.prototype.trim`: whitespace removed from both ends. -/
def trimChars (cs : List Char) : List Char :=
  (dropWs (dropWs cs.reverse).reverse)

/-- The `sanitize` helper of `server.js` on strings. -/
def sanitize (s : String) : String :=
  ⟨trimChars (s.toList.flatMap escChar)⟩

/-- JS-object lookup `m[k]` for an object embedded as an association list:
the first binding of the key wins; `none` models `undefined`. -/
def lookupIP (m : List (String × String)) (k : String) : Option String :=
  match m with
  | [] => none
  | (k2, v) :: rest => if k2 = k then some v else lookupIP rest k

/-- JS-object assignment `m[k] = v`: replaces the first binding of `k`
in place, or appends a new binding when the key is absent. -/
def setIP (m : List (String × String)) (k : String) (v : String) :
    List (String × String) :=
  match m with
  | [] => [(k, v)]
  | (k2, v2) :: rest =>
      if k2 = k then (k, v) :: rest else (k2, v2) :: setIP rest k v

/-- JS `delete m[k]`: removes the first binding of `k` (a JS object has at
most one binding per key). -/
def delIP (m : List (String × String)) (k : String) :
    List (String × String) :=
  match m with
  | [] => []
  | (k2, v2) :: rest =>
      if k2 = k then rest else (k2, v2) :: delIP rest k

/-- Number of bindings of the ledger carrying the value `v`
(the count of voters currently mapped to the choice `v`). -/
def countVal (m : List (String × String)) (v : String) : Nat :=
  (m.filter (fun p => p.2 = v)).length

/-- JS truthiness of `m[k]` when `k` may be unbound: `undefined` and the
empty string are falsy, every other string is truthy. -/
def isTruthy : Option String → Bool
  | none => false
  | some s => !(s == "")

/-- The `votedIPs` field of a stored name record, which on disk is either
absent, a legacy array of identities, or an object mapping each voter
identity to its current choice string. -/
inductive VotedBy where
  | missing : VotedBy
  | legacy (ips : List String) : VotedBy
  | map (m : List (String × String)) : VotedBy
  deriving DecidableEq, Repr

/-- A record of the `names.json` collection. -/
structure NameRec where
  id : String
  name : String
  votes : Nat
  dislikes : Nat
  votedIPs : VotedBy
  deriving DecidableEq, Repr

/-- Lines 589-599 of `server.js`: normalize `votedIPs` before voting.
A legacy array is rebuilt as an object assigning every identity the value
`'up'`; a missing field becomes the empty object; an object is kept. -/
def normalizeVotedBy : VotedBy → List (String × String)
  | .map m => m
  | .legacy ips => ips.foldl (fun acc ip => setIP acc ip "up") []
  | .missing => []

/-- The record created by `POST /api/names` (line 559): sanitized name,
zero counters, and a legacy-shaped empty `votedIPs` array. -/
def freshName (newId nm : String) : NameRec :=
  { id := newId, name := sanitize nm, votes := 0, dislikes := 0,
    votedIPs := .legacy [] }

/-- Lines 589-617 of `server.js` (`POST /api/vote`, current version), the
mutation applied to the located record: normalize the ledger, read the
previous vote, net out the previous vote for a resolvable identity
(`Math.max(0, x - 1)` is `Nat` subtraction), then apply the new vote or
withdraw. -/
def applyVote (r : NameRec) (clientIP ty : String) : NameRec :=
  let m := normalizeVotedBy r.votedIPs
  let previousVote := lookupIP m clientIP
  let votes1 :=
    if clientIP ≠ "unknown" ∧ isTruthy previousVote = true then
      if previousVote = some "up" then r.votes - 1 else r.votes
    else r.votes
  let dislikes1 :=
    if clientIP ≠ "unknown" ∧ isTruthy previousVote = true then
      if previousVote = some "down" then r.dislikes - 1 else r.dislikes
    else r.dislikes
  if ty = "none" then
    { r with votes := votes1, dislikes := dislikes1,
             votedIPs := .map (delIP m clientIP) }
  else
    { r with
        votes := if ty = "up" then votes1 + 1 else votes1,
        dislikes := if ty = "down" then dislikes1 + 1 else dislikes1,
        votedIPs := .map (setIP m clientIP ty) }

/-- Modelled from the spec: §4.1 step sequence for `applyVote` (steps 2-5),
written from the specification's own wording so that the code handler can be
compared against it. Step 2 normalizes the ledger; step 3 reads
`previous = votedBy[voterIdentity]`; step 4 decrements the aggregate counter
matching `previous` (floored at 0, which is `Nat` subtraction) when `previous`
exists and the identity is resolvable; step 5 either removes the entry (for
"none") or increments the counter matching the choice and records it. -/
def applyVoteSpec (r : NameRec) (voter choice : String) : NameRec :=
  let m := normalizeVotedBy r.votedIPs
  let r1 :=
    match lookupIP m voter with
    | some p =>
        if voter ≠ "unknown" then
          if p = "up" then { r with votes := r.votes - 1 }
          else if p = "down" then { r with dislikes := r.dislikes - 1 }
          else r
        else r
    | none => r
  if choice = "none" then
    { r1 with votedIPs := .map (delIP m voter) }
  else if choice = "up" then
    { r1 with votes := r1.votes + 1, votedIPs := .map (setIP m voter choice) }
  else
    { r1 with dislikes := r1.dislikes + 1,
              votedIPs := .map (setIP m voter choice) }

/-- Replace the first record with the given id (the JS handler mutates the
record located by `names.find(...)` inside the array it then persists). -/
def replaceFirst (names : List NameRec) (rid : String) (n2 : NameRec) :
    List NameRec :=
  match names with
  | [] => []
  | n :: rest =>
      if n.id == rid then n2 :: rest else n :: replaceFirst rest rid n2

/-- Outcome of `POST /api/vote`: HTTP status, response record (on 200), and
the contents persisted to `names.json` after the request. -/
structure VoteOutcome where
  status : Nat
  body : Option NameRec
  stored : List NameRec
  deriving DecidableEq, Repr

/-- Lines 577-621 of `server.js`: the `POST /api/vote` route (current
version). A missing id (modelled as the empty string) or a type outside
`['up','down','none']` is a 400; an unknown id is a 404; otherwise the
located record is updated by `applyVote` and the collection is persisted. -/
def handleVote (names : List NameRec) (clientIP rid ty : String) :
    VoteOutcome :=
  if rid = "" ∨ ty ∉ (["up", "down", "none"] : List String) then
    ⟨400, none, names⟩
  else
    match names.find? (fun n => n.id == rid) with
    | none => ⟨404, none, names⟩
    | some n =>
        let n2 := applyVote n clientIP ty
        ⟨200, some n2, replaceFirst names rid n2⟩

/-- Lines 566-574 of `server.js`: `DELETE /api/names/:id`. After the PIN
check the collection is filtered and rewritten unconditionally and the route
answers success; there is no not-found branch. Returns status and the
persisted collection. -/
def deleteName (adminPin pin : String) (names : List NameRec)
    (rid : String) : Nat × List NameRec :=
  if pin ≠ adminPin then (401, names)
  else (200, names.filter (fun n => n.id != rid))

/-- A record of the `wishlist.json` collection. -/
structure WishItem where
  id : String
  name : String
  link : String
  price : String
  note : String
  reserved : Bool
  reservedBy : Option String
  date : String
  deriving DecidableEq, Repr

/-- Lines 693-705 of `server.js`: `DELETE /api/wishlist/:id`. When the
filter removes nothing the route answers 404 before any write. -/
def deleteWishlist (adminPin pin : String) (list : List WishItem)
    (rid : String) : Nat × List WishItem :=
  if pin ≠ adminPin then (401, list)
  else
    let l2 := list.filter (fun i => i.id != rid)
    if l2.length = list.length then (404, list) else (200, l2)

/-- A record of the `bets.json` collection (current version). `weight` and
`size` hold `parseInt` results; `none` models the JS `NaN` produced when the
parse finds no digits. -/
structure BetRec where
  id : String
  name : String
  date : String
  time : String
  weight : Option Int
  size : Option Int
  timestamp : String
  deriving DecidableEq, Repr

/-- Hexadecimal digit test for the `parseInt` model. -/
def isHexDigitChar (c : Char) : Bool :=
  c.isDigit || ('a' ≤ c && c ≤ 'f') || ('A' ≤ c && c ≤ 'F')

/-- Numeric value of a hexadecimal digit. -/
def hexVal (c : Char) : Nat :=
  if c.isDigit then c.toNat - 48
  else if 'a' ≤ c && c ≤ 'f' then c.toNat - 87
  else c.toNat - 55

/-- Maximal leading run of digits of the given radix, as a number;
`none` when the run is empty (the JS `NaN` case). -/
def parseRun (isDig : Char → Bool) (base : Nat) (v : Char → Nat)
    (cs : List Char) : Option Nat :=
  let ds := cs.takeWhile isDig
  if ds = [] then none
  else some (ds.foldl (fun a c => a * base + v c) 0)

/-- Model of the JavaScript `parseInt` builtin on strings with no radix
argument: skip leading whitespace, consume an optional sign, auto-detect
the radix — a `0x`/`0X` prefix selects hexadecimal (the prefix is
consumed), anything else decimal — then take the maximal run of digits
valid in that radix; an empty run yields `NaN`, modelled as `none`
(so `parseInt("0x")` is `NaN`, `parseInt("0x10")` is 16,
`parseInt("-0x10")` is -16). -/
def jsParseInt (s : String) : Option Int :=
  let cs := dropWs s.toList
  let signed : Int × List Char :=
    match cs with
    | '-' :: r => (-1, r)
    | '+' :: r => (1, r)
    | _ => (1, cs)
  let parsed : Option Nat :=
    match signed.2 with
    | '0' :: x :: r =>
        if x = 'x' ∨ x = 'X' then parseRun isHexDigitChar 16 hexVal r
        else parseRun (fun c => c.isDigit) 10 (fun c => c.toNat - 48)
          ('0' :: x :: r)
    | cs2 => parseRun (fun c => c.isDigit) 10 (fun c => c.toNat - 48) cs2
  parsed.map (fun nv => signed.1 * (nv : Int))

/-- Outcome of `POST /api/bets`: status, created record (on 201), and the
persisted collection. -/
structure BetsOutcome where
  status : Nat
  bet : Option BetRec
  stored : List BetRec
  deriving DecidableEq, Repr

/-- Lines 735-759 of `server.js`: `POST /api/bets`. Body fields are
strings; a missing or empty field is falsy, so the required-field check
rejects it (400), as does a name above 50 characters. The created bet
stores `parseInt(weight)` and `parseInt(size)` and defaults a falsy time to
`'12:00'`. -/
def postBets (name date time weight size : String) (list : List BetRec)
    (newId ts : String) : BetsOutcome :=
  if name = "" ∨ date = "" ∨ weight = "" ∨ size = "" then ⟨400, none, list⟩
  else if name.length > 50 then ⟨400, none, list⟩
  else
    let b : BetRec :=
      { id := newId, name := sanitize name, date := sanitize date,
        time := if sanitize time = "" then "12:00" else sanitize time,
        weight := jsParseInt weight, size := jsParseInt size,
        timestamp := ts }
    ⟨201, some b, list ++ [b]⟩

/-- Lines 762-779 of `server.js`: `DELETE /api/bets/:id`, same not-found
logic as the wishlist delete. -/
def deleteBets (adminPin pin : String) (list : List BetRec)
    (rid : String) : Nat × List BetRec :=
  if pin ≠ adminPin then (401, list)
  else
    let l2 := list.filter (fun b => b.id != rid)
    if l2.length = list.length then (404, list) else (200, l2)

/-- A record of the `offers.json` collection. `email` is `none` when the
stored record has no email value (`undefined` in JS). -/
structure Offer where
  id : String
  name : String
  email : Option String
  description : String
  imageUrl : String
  timestamp : String
  deriving DecidableEq, Repr

/-- The JSON object emitted for an offer by `res.json`, as an ordered list
of key/value pairs. `JSON.stringify` drops properties whose value is
`undefined`, so a `none` email contributes no `email` key at all. -/
def offerJson (o : Offer) : List (String × String) :=
  [("id", o.id), ("name", o.name)]
    ++ (match o.email with | some e => [("email", e)] | none => [])
    ++ [("description", o.description), ("imageUrl", o.imageUrl),
        ("timestamp", o.timestamp)]

/-- The public projection `{ ...o, email: undefined }` of line 804. -/
def publicOffer (o : Offer) : Offer := { o with email := none }

/-- Lines 797-807 of `server.js`: `GET /api/offers`. With the correct admin
PIN the stored records are emitted verbatim; otherwise every record is
emitted with its `email` set to `undefined` (hence the key dropped). -/
def getOffers (adminPin pin : String) (offers : List Offer) :
    List (List (String × String)) :=
  if pin = adminPin then offers.map offerJson
  else (offers.map publicOffer).map offerJson

/-- Lines 859-880 of `server.js`: `DELETE /api/offers/:id`. A missing id is
a 404 before any write; otherwise the record is filtered out and persisted
(the best-effort image-file unlink is a file-system side effect outside the
embedded state). -/
def deleteOffers (adminPin pin : String) (list : List Offer)
    (rid : String) : Nat × List Offer :=
  if pin ≠ adminPin then (401, list)
  else
    match list.find? (fun o => o.id == rid) with
    | none => (404, list)
    | some _ => (200, list.filter (fun o => o.id != rid))

/-- `n` successive `POST /api/vote` mutations on one record from one caller
with one fixed type. -/
def voteN (ip ty : String) : Nat → NameRec → NameRec
  | 0, r => r
  | n + 1, r => applyVote (voteN ip ty n r) ip ty

/-- Records reachable from a freshly created suggestion by any sequence of
(validated) vote mutations. -/
inductive ReachableVote : NameRec → Prop where
  | fresh (newId nm : String) : ReachableVote (freshName newId nm)
  | step (r : NameRec) (ip ty : String)
      (hty : ty = "up" ∨ ty = "down" ∨ ty = "none") :
      ReachableVote r → ReachableVote (applyVote r ip ty)

/-- Records reachable from a freshly created suggestion by vote mutations
whose voter identities are all resolvable (not the sentinel `"unknown"`). -/
inductive ReachableVoteRes : NameRec → Prop where
  | fresh (newId nm : String) : ReachableVoteRes (freshName newId nm)
  | step (r : NameRec) (ip ty : String) (hip : ip ≠ "unknown")
      (hty : ty = "up" ∨ ty = "down" ∨ ty = "none") :
      ReachableVoteRes r → ReachableVoteRes (applyVote r ip ty)

/-! ### Association-list lemmas for the vote ledger -/

theorem lookupIP_setIP_self (m : List (String × String)) (k v : String) :
    lookupIP (setIP m k v) k = some v := by
  induction m with
  | nil => simp [setIP, lookupIP]
  | cons p rest ih =>
      by_cases h : p.1 = k
      · simp [setIP, h, lookupIP]
      · simp [setIP, h, lookupIP, ih]

theorem lookupIP_setIP_ne (m : List (String × String)) (k k' v : String)
    (h : k' ≠ k) : lookupIP (setIP m k v) k' = lookupIP m k' := by
  induction m with
  | nil => simp [setIP, lookupIP, Ne.symm h]
  | cons p rest ih =>
      cases p with
      | mk p1 p2 =>
          by_cases hp : p1 = k
          · subst hp
            simp [setIP, lookupIP, Ne.symm h]
          · by_cases hp' : p1 = k'
            · subst hp'
              simp [setIP, hp, lookupIP]
            · simp [setIP, hp, lookupIP, hp', ih]

theorem delIP_of_lookup_none (m : List (String × String)) (k : String)
    (h : lookupIP m k = none) : delIP m k = m := by
  induction m with
  | nil => simp [delIP]
  | cons p rest ih =>
      by_cases hp : p.1 = k
      · simp [lookupIP, hp] at h
      · simp [lookupIP, hp] at h
        simp [delIP, hp, ih h]

theorem setIP_of_lookup_self (m : List (String × String)) (k v : String)
    (h : lookupIP m k = some v) : setIP m k v = m := by
  induction m with
  | nil => simp [lookupIP] at h
  | cons p rest ih =>
      by_cases hp : p.1 = k
      · simp [lookupIP, hp] at h
        cases p with
        | mk p1 p2 => simp_all [setIP]
      · simp [lookupIP, hp] at h
        simp [setIP, hp, ih h]

theorem setIP_setIP (m : List (String × String)) (k v w : String) :
    setIP (setIP m k v) k w = setIP m k w := by
  induction m with
  | nil => simp [setIP]
  | cons p rest ih =>
      by_cases hp : p.1 = k
      · simp [setIP, hp]
      · simp [setIP, hp, ih]

theorem delIP_setIP_of_none (m : List (String × String)) (k v : String)
    (h : lookupIP m k = none) : delIP (setIP m k v) k = m := by
  induction m with
  | nil => simp [setIP, delIP]
  | cons p rest ih =>
      by_cases hp : p.1 = k
      · simp [lookupIP, hp] at h
      · simp [lookupIP, hp] at h
        simp [setIP, hp, delIP, ih h]

theorem lookupIP_mem (m : List (String × String)) (k u : String)
    (h : lookupIP m k = some u) : (k, u) ∈ m := by
  induction m with
  | nil => simp [lookupIP] at h
  | cons p rest ih =>
      cases p with
      | mk p1 p2 =>
          by_cases hp : p1 = k
          · subst hp
            simp [lookupIP] at h
            subst h
            exact List.mem_cons_self _ _
          · simp [lookupIP, hp] at h
            exact List.mem_cons_of_mem _ (ih h)

theorem countVal_cons (k u : String) (m : List (String × String))
    (v : String) :
    countVal ((k, u) :: m) v = (if u = v then 1 else 0) + countVal m v := by
  by_cases h : u = v <;> simp [countVal, List.filter_cons, h, Nat.add_comm]

theorem countVal_pos (m : List (String × String)) (k u : String)
    (h : (k, u) ∈ m) : 1 ≤ countVal m u := by
  induction m with
  | nil => simp at h
  | cons p rest ih =>
      cases p with
      | mk p1 p2 =>
          rcases List.mem_cons.mp h with h1 | h2
          · injection h1 with hk hu
            subst hk
            subst hu
            simp [countVal_cons]
          · have := ih h2
            simp [countVal_cons]
            omega

theorem countVal_setIP_none (m : List (String × String)) (k v w : String)
    (h : lookupIP m k = none) :
    countVal (setIP m k v) w = countVal m w + (if v = w then 1 else 0) := by
  induction m with
  | nil => by_cases hv : v = w <;> simp [setIP, countVal, hv]
  | cons p rest ih =>
      cases p with
      | mk p1 p2 =>
          by_cases hp : p1 = k
          · simp [lookupIP, hp] at h
          · simp [lookupIP, hp] at h
            simp [setIP, hp, countVal_cons, ih h]
            omega

theorem countVal_setIP_some (m : List (String × String)) (k v u w : String)
    (h : lookupIP m k = some u) :
    countVal (setIP m k v) w + (if u = w then 1 else 0) =
      countVal m w + (if v = w then 1 else 0) := by
  induction m with
  | nil => simp [lookupIP] at h
  | cons p rest ih =>
      cases p with
      | mk p1 p2 =>
          by_cases hp : p1 = k
          · subst hp
            simp [lookupIP] at h
            subst h
            simp [setIP, countVal_cons]
            omega
          · simp [lookupIP, hp] at h
            simp [setIP, hp, countVal_cons]
            have := ih h
            omega

theorem countVal_delIP_some (m : List (String × String)) (k u w : String)
    (h : lookupIP m k = some u) :
    countVal (delIP m k) w + (if u = w then 1 else 0) = countVal m w := by
  induction m with
  | nil => simp [lookupIP] at h
  | cons p rest ih =>
      cases p with
      | mk p1 p2 =>
          by_cases hp : p1 = k
          · subst hp
            simp [lookupIP] at h
            subst h
            simp [delIP, countVal_cons]
            omega
          · simp [lookupIP, hp] at h
            simp [delIP, hp, countVal_cons]
            have := ih h
            omega

theorem mem_setIP (m : List (String × String)) (k v : String)
    (p : String × String) (h : p ∈ setIP m k v) : p = (k, v) ∨ p ∈ m := by
  induction m with
  | nil => simpa [setIP] using h
  | cons q rest ih =>
      cases q with
      | mk q1 q2 =>
          by_cases hq : q1 = k
          · simp [setIP, hq] at h
            rcases h with h | h
            · exact Or.inl (by simp [h])
            · exact Or.inr (List.mem_cons_of_mem _ h)
          · simp [setIP, hq] at h
            rcases h with h | h
            · exact Or.inr (by simp [h])
            · rcases ih h with h2 | h2
              · exact Or.inl h2
              · exact Or.inr (List.mem_cons_of_mem _ h2)

theorem mem_delIP (m : List (String × String)) (k : String)
    (p : String × String) (h : p ∈ delIP m k) : p ∈ m := by
  induction m with
  | nil => simp [delIP] at h
  | cons q rest ih =>
      cases q with
      | mk q1 q2 =>
          by_cases hq : q1 = k
          · simp [delIP, hq] at h
            exact List.mem_cons_of_mem _ h
          · simp [delIP, hq] at h
            rcases h with h | h
            · simp [h]
            · exact List.mem_cons_of_mem _ (ih h)

theorem keys_mem_setIP (m : List (String × String)) (k v a : String)
    (h : a ∈ (setIP m k v).map Prod.fst) :
    a = k ∨ a ∈ m.map Prod.fst := by
  rcases List.mem_map.mp h with ⟨p, hp, ha⟩
  rcases mem_setIP m k v p hp with h2 | h2
  · subst h2
    exact Or.inl (by rw [← ha])
  · exact Or.inr (List.mem_map.mpr ⟨p, h2, ha⟩)

theorem nodup_setIP (m : List (String × String)) (k v : String)
    (h : (m.map Prod.fst).Nodup) : ((setIP m k v).map Prod.fst).Nodup := by
  induction m with
  | nil => simp [setIP]
  | cons q rest ih =>
      cases q with
      | mk q1 q2 =>
          rw [List.map_cons, List.nodup_cons] at h
          by_cases hq : q1 = k
          · subst hq
            rw [show setIP ((q1, q2) :: rest) q1 v = (q1, v) :: rest from
              by simp [setIP]]
            rw [List.map_cons, List.nodup_cons]
            exact h
          · rw [show setIP ((q1, q2) :: rest) k v =
                (q1, q2) :: setIP rest k v from by simp [setIP, hq]]
            rw [List.map_cons, List.nodup_cons]
            refine ⟨fun hmem => ?_, ih h.2⟩
            rcases keys_mem_setIP rest k v q1 hmem with h2 | h2
            · exact hq h2
            · exact h.1 h2

theorem nodup_delIP (m : List (String × String)) (k : String)
    (h : (m.map Prod.fst).Nodup) : ((delIP m k).map Prod.fst).Nodup := by
  induction m with
  | nil => simp [delIP]
  | cons q rest ih =>
      cases q with
      | mk q1 q2 =>
          rw [List.map_cons, List.nodup_cons] at h
          by_cases hq : q1 = k
          · rw [show delIP ((q1, q2) :: rest) k = rest from
              by simp [delIP, hq]]
            exact h.2
          · rw [show delIP ((q1, q2) :: rest) k =
                (q1, q2) :: delIP rest k from by simp [delIP, hq]]
            rw [List.map_cons, List.nodup_cons]
            refine ⟨fun hmem => ?_, ih h.2⟩
            rcases List.mem_map.mp hmem with ⟨p, hp, hfst⟩
            exact h.1 (List.mem_map.mpr ⟨p, mem_delIP rest k p hp, hfst⟩)

/-! ### Characterizations of the vote mutation -/

theorem normalizeVotedBy_map (m : List (String × String)) :
    normalizeVotedBy (.map m) = m := rfl

theorem applyVote_of_lookup_none (r : NameRec) (m : List (String × String))
    (ip ty : String) (hm : r.votedIPs = .map m)
    (h : lookupIP m ip = none) :
    applyVote r ip ty =
      if ty = "none" then { r with votedIPs := .map (delIP m ip) }
      else
        { r with
            votes := if ty = "up" then r.votes + 1 else r.votes,
            dislikes := if ty = "down" then r.dislikes + 1 else r.dislikes,
            votedIPs := .map (setIP m ip ty) } := by
  simp [applyVote, hm, normalizeVotedBy, h, isTruthy]

theorem applyVote_unknown (r : NameRec) (ty : String) :
    applyVote r "unknown" ty =
      if ty = "none" then
        { r with
            votedIPs :=
              .map (delIP (normalizeVotedBy r.votedIPs) "unknown") }
      else
        { r with
            votes := if ty = "up" then r.votes + 1 else r.votes,
            dislikes := if ty = "down" then r.dislikes + 1 else r.dislikes,
            votedIPs :=
              .map (setIP (normalizeVotedBy r.votedIPs) "unknown" ty) } := by
  simp [applyVote]

theorem applyVote_of_lookup_some (r : NameRec) (m : List (String × String))
    (ip ty p : String) (hm : r.votedIPs = .map m) (hip : ip ≠ "unknown")
    (h : lookupIP m ip = some p) (hp : p = "up" ∨ p = "down") :
    applyVote r ip ty =
      if ty = "none" then
        { r with
            votes := if p = "up" then r.votes - 1 else r.votes,
            dislikes := if p = "down" then r.dislikes - 1 else r.dislikes,
            votedIPs := .map (delIP m ip) }
      else
        { r with
            votes :=
              if ty = "up" then
                (if p = "up" then r.votes - 1 else r.votes) + 1
              else if p = "up" then r.votes - 1 else r.votes,
            dislikes :=
              if ty = "down" then
                (if p = "down" then r.dislikes - 1 else r.dislikes) + 1
              else if p = "down" then r.dislikes - 1 else r.dislikes,
            votedIPs := .map (setIP m ip ty) } := by
  have htr : isTruthy (some p) = true := by
    rcases hp with hp | hp <;> simp [isTruthy, hp]
  simp [applyVote, hm, normalizeVotedBy, h, htr, hip]

theorem applyVote_normalize (r : NameRec) (ip ty : String) :
    applyVote r ip ty =
      applyVote { r with votedIPs := .map (normalizeVotedBy r.votedIPs) }
        ip ty := by
  cases r
  rfl

/-- Well-formed ledger: one binding per voter identity, every recorded
choice is `"up"` or `"down"`. -/
def LedgerWF (m : List (String × String)) : Prop :=
  (m.map Prod.fst).Nodup ∧ ∀ p ∈ m, p.2 = "up" ∨ p.2 = "down"

/-- The data-model invariant of a name record: its (normalized) ledger is
well formed, `votes` counts the voters mapped to `"up"`, and `dislikes`
counts the voters mapped to `"down"`. -/
def RecInv (r : NameRec) : Prop :=
  LedgerWF (normalizeVotedBy r.votedIPs) ∧
  r.votes = countVal (normalizeVotedBy r.votedIPs) "up" ∧
  r.dislikes = countVal (normalizeVotedBy r.votedIPs) "down"

theorem ledgerWF_setIP (m : List (String × String)) (k v : String)
    (hwf : LedgerWF m) (hv : v = "up" ∨ v = "down") :
    LedgerWF (setIP m k v) := by
  refine ⟨nodup_setIP m k v hwf.1, fun p hp => ?_⟩
  rcases mem_setIP m k v p hp with h | h
  · subst h
    exact hv
  · exact hwf.2 p h

theorem ledgerWF_delIP (m : List (String × String)) (k : String)
    (hwf : LedgerWF m) : LedgerWF (delIP m k) :=
  ⟨nodup_delIP m k hwf.1, fun p hp => hwf.2 p (mem_delIP m k p hp)⟩

theorem applyVote_preserves_inv_map (r : NameRec)
    (m : List (String × String)) (ip ty : String)
    (hm : r.votedIPs = .map m) (hip : ip ≠ "unknown")
    (hty : ty = "up" ∨ ty = "down" ∨ ty = "none") (hwf : LedgerWF m)
    (hv : r.votes = countVal m "up") (hd : r.dislikes = countVal m "down") :
    RecInv (applyVote r ip ty) := by
  cases hlk : lookupIP m ip with
  | none =>
      rw [applyVote_of_lookup_none _ m ip ty hm hlk]
      rcases hty with h | h | h <;> subst h
      · simp only [if_neg (by decide : ¬("up" : String) = "none"),
          if_pos rfl, RecInv, normalizeVotedBy_map]
        refine ⟨ledgerWF_setIP m ip "up" hwf (Or.inl rfl), ?_, ?_⟩
        · simp [countVal_setIP_none m ip "up" "up" hlk, hv]
        · simp [countVal_setIP_none m ip "up" "down" hlk, hd]
      · simp only [if_neg (by decide : ¬("down" : String) = "none"),
          if_neg (by decide : ¬("down" : String) = "up"),
          if_pos rfl, RecInv, normalizeVotedBy_map]
        refine ⟨ledgerWF_setIP m ip "down" hwf (Or.inr rfl), ?_, ?_⟩
        · simp [countVal_setIP_none m ip "down" "up" hlk, hv]
        · simp [countVal_setIP_none m ip "down" "down" hlk, hd]
      · simp only [if_pos rfl, RecInv, normalizeVotedBy_map]
        rw [delIP_of_lookup_none m ip hlk]
        exact ⟨hwf, hv, hd⟩
  | some p =>
      have hpmem : (ip, p) ∈ m := lookupIP_mem m ip p hlk
      have hpv : p = "up" ∨ p = "down" := hwf.2 (ip, p) hpmem
      have hpos : 1 ≤ countVal m p := countVal_pos m ip p hpmem
      rw [applyVote_of_lookup_some _ m ip ty p hm hip hlk hpv]
      rcases hty with h | h | h <;> subst h
      · simp only [if_neg (by decide : ¬("up" : String) = "none"),
          if_pos rfl, RecInv, normalizeVotedBy_map]
        refine ⟨ledgerWF_setIP m ip "up" hwf (Or.inl rfl), ?_, ?_⟩
        · have := countVal_setIP_some m ip "up" p "up" hlk
          rcases hpv with hp | hp <;> subst hp <;> simp_all <;> omega
        · have := countVal_setIP_some m ip "up" p "down" hlk
          rcases hpv with hp | hp <;> subst hp <;> simp_all <;> omega
      · simp only [if_neg (by decide : ¬("down" : String) = "none"),
          if_neg (by decide : ¬("down" : String) = "up"),
          if_pos rfl, RecInv, normalizeVotedBy_map]
        refine ⟨ledgerWF_setIP m ip "down" hwf (Or.inr rfl), ?_, ?_⟩
        · have := countVal_setIP_some m ip "down" p "up" hlk
          rcases hpv with hp | hp <;> subst hp <;> simp_all <;> omega
        · have := countVal_setIP_some m ip "down" p "down" hlk
          rcases hpv with hp | hp <;> subst hp <;> simp_all <;> omega
      · simp only [if_pos rfl, RecInv, normalizeVotedBy_map]
        refine ⟨ledgerWF_delIP m ip hwf, ?_, ?_⟩
        · have := countVal_delIP_some m ip p "up" hlk
          rcases hpv with hp | hp <;> subst hp <;>
            simp_all [normalizeVotedBy] <;> omega
        · have := countVal_delIP_some m ip p "down" hlk
          rcases hpv with hp | hp <;> subst hp <;>
            simp_all [normalizeVotedBy] <;> omega

theorem applyVote_preserves_inv (r : NameRec) (ip ty : String)
    (hip : ip ≠ "unknown") (hty : ty = "up" ∨ ty = "down" ∨ ty = "none")
    (hinv : RecInv r) : RecInv (applyVote r ip ty) := by
  obtain ⟨hwf, hv, hd⟩ := hinv
  rw [applyVote_normalize]
  exact applyVote_preserves_inv_map _ _ ip ty rfl hip hty hwf hv hd

theorem reachableRes_inv (r : NameRec) (h : ReachableVoteRes r) :
    RecInv r := by
  induction h with
  | fresh newId nm =>
      refine ⟨⟨by simp [freshName, normalizeVotedBy], ?_⟩, by rfl, by rfl⟩
      intro p hp
      simp [freshName, normalizeVotedBy] at hp
  | step r ip ty hip hty _ ih =>
      exact applyVote_preserves_inv r ip ty hip hty ih

theorem replaceFirst_self (names : List NameRec) (rid : String)
    (n : NameRec) (h : names.find? (fun r => r.id == rid) = some n) :
    replaceFirst names rid n = names := by
  induction names with
  | nil => simp [List.find?] at h
  | cons a rest ih =>
      rw [List.find?_cons] at h
      cases ha : (a.id == rid) with
      | true =>
          simp only [ha] at h
          injection h with h
          subst h
          simp [replaceFirst, ha]
      | false =>
          simp only [ha] at h
          simp [replaceFirst, ha, ih h]

theorem applyVote_votedIPs_map (r : NameRec) (ip ty : String) :
    ∃ m2, (applyVote r ip ty).votedIPs = .map m2 := by
  by_cases h : ty = "none"
  · refine ⟨delIP (normalizeVotedBy r.votedIPs) ip, ?_⟩
    simp [applyVote, h]
  · refine ⟨setIP (normalizeVotedBy r.votedIPs) ip ty, ?_⟩
    simp [applyVote, h]

theorem lookupIP_legacyFold (ips : List String)
    (acc : List (String × String)) (k : String) :
    lookupIP (ips.foldl (fun a ip => setIP a ip "up") acc) k =
      if k ∈ ips then some "up" else lookupIP acc k := by
  induction ips generalizing acc with
  | nil => simp
  | cons x rest ih =>
      simp only [List.foldl_cons]
      rw [ih]
      by_cases hk : k ∈ rest
      · simp [hk]
      · by_cases hx : k = x
        · subst hx
          simp [hk, lookupIP_setIP_self]
        · simp [hk, hx, lookupIP_setIP_ne _ _ _ _ hx]

theorem applyVote_same_choice_fix (n : NameRec)
    (m : List (String × String)) (ip ty : String)
    (hm : n.votedIPs = .map m) (hip : ip ≠ "unknown")
    (hty : ty = "up" ∨ ty = "down") (hprev : lookupIP m ip = some ty)
    (hv : n.votes = countVal m "up") (hd : n.dislikes = countVal m "down") :
    applyVote n ip ty = n := by
  have hset : setIP m ip ty = m := setIP_of_lookup_self m ip ty hprev
  rw [applyVote_of_lookup_some n m ip ty ty hm hip hprev hty]
  cases n with
  | mk i nm v d vb =>
      replace hm : vb = VotedBy.map m := hm
      subst hm
      simp only [NameRec.votes] at hv
      simp only [NameRec.dislikes] at hd
      rcases hty with h | h <;> subst h
      · have hpos : 1 ≤ countVal m "up" :=
          countVal_pos m ip "up" (lookupIP_mem m ip "up" hprev)
        simp [hset]
        omega
      · have hpos : 1 ≤ countVal m "down" :=
          countVal_pos m ip "down" (lookupIP_mem m ip "down" hprev)
        simp [hset]
        omega

theorem applyVote_eq_spec (r : NameRec) (m : List (String × String))
    (ip ty : String) (hm : r.votedIPs = .map m)
    (hvals : ∀ p ∈ m, p.2 = "up" ∨ p.2 = "down")
    (hty : ty = "up" ∨ ty = "down" ∨ ty = "none") :
    applyVote r ip ty = applyVoteSpec r ip ty := by
  by_cases hip : ip = "unknown"
  · subst hip
    rw [applyVote_unknown]
    cases hlk : lookupIP m "unknown" with
    | none =>
        rcases hty with h | h | h <;> subst h <;>
          simp [applyVoteSpec, hm, normalizeVotedBy, hlk]
    | some p =>
        rcases hty with h | h | h <;> subst h <;>
          simp [applyVoteSpec, hm, normalizeVotedBy, hlk]
  · cases hlk : lookupIP m ip with
    | none =>
        rw [applyVote_of_lookup_none r m ip ty hm hlk]
        rcases hty with h | h | h <;> subst h <;>
          simp [applyVoteSpec, hm, normalizeVotedBy, hlk]
    | some p =>
        have hp : p = "up" ∨ p = "down" :=
          hvals (ip, p) (lookupIP_mem m ip p hlk)
        rw [applyVote_of_lookup_some r m ip ty p hm hip hlk hp]
        rcases hp with hpu | hpu <;> subst hpu <;>
          rcases hty with h | h | h <;> subst h <;>
            simp [applyVoteSpec, hm, normalizeVotedBy, hlk, hip]

/-! ## Claims -/

/-- C1 (counterexample): with one record whose ledger already maps the
resolvable identity "9.9.9.9" to "up", a second "up" vote from that
identity is answered 200, not 403 as the claim states: the current vote
route has no duplicate-rejection branch. -/
theorem c1_counterexample :
    (handleVote [⟨"1", "Mia", 1, 0, .map [("9.9.9.9", "up")]⟩]
      "9.9.9.9" "1" "up").status = 200 ∧
    (handleVote [⟨"1", "Mia", 1, 0, .map [("9.9.9.9", "up")]⟩]
      "9.9.9.9" "1" "up").status ≠ 403 := by
  constructor
  · decide
  · decide

/-- C1 (amended): for every name record satisfying the counters-match-ledger
invariant whose mapping-form ledger already holds an entry for a resolvable
voter identity, a second vote request of the same non-"none" choice without
an intervening "none" succeeds with status 200 and leaves the record — its
votes and dislikes counters and its ledger — and the stored collection
entirely unchanged. -/
theorem c1_duplicate_vote (names : List NameRec) (n : NameRec)
    (m : List (String × String)) (ip rid ty : String)
    (hid : rid ≠ "")
    (hfind : names.find? (fun r => r.id == rid) = some n)
    (hm : n.votedIPs = .map m) (hip : ip ≠ "unknown")
    (hty : ty = "up" ∨ ty = "down") (hprev : lookupIP m ip = some ty)
    (hv : n.votes = countVal m "up") (hd : n.dislikes = countVal m "down") :
    handleVote names ip rid ty = ⟨200, some n, names⟩ := by
  have hfix : applyVote n ip ty = n :=
    applyVote_same_choice_fix n m ip ty hm hip hty hprev hv hd
  have hmem : ty ∈ (["up", "down", "none"] : List String) := by
    rcases hty with h | h <;> simp [h]
  simp [handleVote, hid, hmem, hfind, hfix, replaceFirst_self names rid n hfind]

/-- C1 (witness). -/
theorem c1_duplicate_vote_witness :
    handleVote [⟨"1", "Mia", 1, 0, .map [("9.9.9.9", "up")]⟩]
      "9.9.9.9" "1" "up" =
    ⟨200, some ⟨"1", "Mia", 1, 0, .map [("9.9.9.9", "up")]⟩,
      [⟨"1", "Mia", 1, 0, .map [("9.9.9.9", "up")]⟩]⟩ :=
  c1_duplicate_vote
    [⟨"1", "Mia", 1, 0, .map [("9.9.9.9", "up")]⟩]
    ⟨"1", "Mia", 1, 0, .map [("9.9.9.9", "up")]⟩
    [("9.9.9.9", "up")] "9.9.9.9" "1" "up"
    (by decide) (by decide) (by decide) (by decide)
    (Or.inl rfl) (by decide) (by decide) (by decide)

/-- C2: for every name collection containing the target record in mapping
form with well-formed recorded choices and every validated vote request,
the vote route answers 200 with exactly the record computed by the
specification's step sequence (`applyVoteSpec`: net out the previous vote
of a resolvable identity floored at 0, then remove the entry for "none" or
increment the counter matching the choice and record it), and persists that
record into the collection. -/
theorem c2_follows_spec_steps (names : List NameRec) (n : NameRec)
    (m : List (String × String)) (ip rid ty : String)
    (hid : rid ≠ "")
    (hfind : names.find? (fun r => r.id == rid) = some n)
    (hm : n.votedIPs = .map m)
    (hvals : ∀ p ∈ m, p.2 = "up" ∨ p.2 = "down")
    (hty : ty = "up" ∨ ty = "down" ∨ ty = "none") :
    handleVote names ip rid ty =
      ⟨200, some (applyVoteSpec n ip ty),
        replaceFirst names rid (applyVoteSpec n ip ty)⟩ := by
  have he := applyVote_eq_spec n m ip ty hm hvals hty
  have hmem : ty ∈ (["up", "down", "none"] : List String) := by
    rcases hty with h | h | h <;> simp [h]
  simp [handleVote, hid, hmem, hfind, he]

/-- C2 (witness). -/
theorem c2_follows_spec_steps_witness :
    handleVote [⟨"1", "Mia", 1, 0, .map [("8.8.8.8", "up")]⟩]
      "9.9.9.9" "1" "down" =
    ⟨200,
      some (applyVoteSpec ⟨"1", "Mia", 1, 0, .map [("8.8.8.8", "up")]⟩
        "9.9.9.9" "down"),
      replaceFirst [⟨"1", "Mia", 1, 0, .map [("8.8.8.8", "up")]⟩] "1"
        (applyVoteSpec ⟨"1", "Mia", 1, 0, .map [("8.8.8.8", "up")]⟩
          "9.9.9.9" "down")⟩ :=
  c2_follows_spec_steps [⟨"1", "Mia", 1, 0, .map [("8.8.8.8", "up")]⟩]
    ⟨"1", "Mia", 1, 0, .map [("8.8.8.8", "up")]⟩ [("8.8.8.8", "up")]
    "9.9.9.9" "1" "down" (by decide) (by decide) (by decide)
    (by decide) (Or.inr (Or.inl rfl))

/-- C3 (counterexample): the record obtained from a fresh suggestion by two
"up" votes of the unresolvable identity "unknown" is reachable by vote
operations, yet its votes counter (2) differs from the number of ledger
entries mapped to "up" (1): an "unknown" re-vote increments without a
compensating decrement, breaking the invariant. -/
theorem c3_counterexample :
    ReachableVote (applyVote (applyVote (freshName "1" "Mia")
      "unknown" "up") "unknown" "up") ∧
    (applyVote (applyVote (freshName "1" "Mia") "unknown" "up")
        "unknown" "up").votes ≠
      countVal (normalizeVotedBy
        (applyVote (applyVote (freshName "1" "Mia") "unknown" "up")
          "unknown" "up").votedIPs) "up" :=
  ⟨ReachableVote.step _ "unknown" "up" (Or.inl rfl)
    (ReachableVote.step _ "unknown" "up" (Or.inl rfl)
      (ReachableVote.fresh "1" "Mia")), by decide⟩

/-- C3 (amended): for every name record reachable from a freshly created
record by vote operations whose voter identities are all resolvable (not
the sentinel "unknown"), votes equals the number of ledger entries mapped
to "up" and dislikes the number mapped to "down" (the ledger has one entry
per identity): every such vote operation preserves the invariant. -/
theorem c3_invariant_resolvable (r : NameRec) (h : ReachableVoteRes r) :
    r.votes = countVal (normalizeVotedBy r.votedIPs) "up" ∧
    r.dislikes = countVal (normalizeVotedBy r.votedIPs) "down" ∧
    ((normalizeVotedBy r.votedIPs).map Prod.fst).Nodup :=
  ⟨(reachableRes_inv r h).2.1, (reachableRes_inv r h).2.2,
    (reachableRes_inv r h).1.1⟩

/-- C3 (witness). -/
theorem c3_invariant_resolvable_witness :
    (applyVote (freshName "1" "Mia") "9.9.9.9" "up").votes =
      countVal (normalizeVotedBy
        (applyVote (freshName "1" "Mia") "9.9.9.9" "up").votedIPs) "up" ∧
    (applyVote (freshName "1" "Mia") "9.9.9.9" "up").dislikes =
      countVal (normalizeVotedBy
        (applyVote (freshName "1" "Mia") "9.9.9.9" "up").votedIPs) "down" ∧
    ((normalizeVotedBy
        (applyVote (freshName "1" "Mia") "9.9.9.9" "up").votedIPs).map
      Prod.fst).Nodup :=
  c3_invariant_resolvable _
    (ReachableVoteRes.step _ "9.9.9.9" "up" (by decide) (Or.inl rfl)
      (ReachableVoteRes.fresh "1" "Mia"))

/-- C4 (counterexample): deleting the absent id "2" from a names collection
holding only id "1" answers 200 with the collection unchanged — not the 404
the claim asserts for every collection: the names delete route filters
unconditionally and has no not-found branch. -/
theorem c4_counterexample :
    (deleteName "2026" "2026" [⟨"1", "Mia", 0, 0, .map []⟩] "2").1 ≠ 404 ∧
    deleteName "2026" "2026" [⟨"1", "Mia", 0, 0, .map []⟩] "2" =
      (200, [⟨"1", "Mia", 0, 0, .map []⟩]) := by
  constructor
  · decide
  · decide

/-- C4 (amended): with the correct admin PIN, deleting an id absent from
the collection returns 404 and leaves the stored collection unchanged for
the wishlist, bets and offers collections; for the names collection it
returns 200 (success) while still leaving the stored collection unchanged
modulo re-serialization. -/
theorem c4_delete_missing_id (adminPin rid : String)
    (names : List NameRec) (wish : List WishItem) (bets : List BetRec)
    (offers : List Offer)
    (hn : ∀ n ∈ names, n.id ≠ rid) (hw : ∀ w ∈ wish, w.id ≠ rid)
    (hb : ∀ b ∈ bets, b.id ≠ rid) (ho : ∀ o ∈ offers, o.id ≠ rid) :
    deleteName adminPin adminPin names rid = (200, names) ∧
    deleteWishlist adminPin adminPin wish rid = (404, wish) ∧
    deleteBets adminPin adminPin bets rid = (404, bets) ∧
    deleteOffers adminPin adminPin offers rid = (404, offers) := by
  have hfn : names.filter (fun n => n.id != rid) = names :=
    List.filter_eq_self.mpr (fun a ha => by simpa using hn a ha)
  have hfw : wish.filter (fun w => w.id != rid) = wish :=
    List.filter_eq_self.mpr (fun a ha => by simpa using hw a ha)
  have hfb : bets.filter (fun b => b.id != rid) = bets :=
    List.filter_eq_self.mpr (fun a ha => by simpa using hb a ha)
  have hfo : offers.find? (fun o => o.id == rid) = none :=
    List.find?_eq_none.mpr (fun a ha => by simpa using ho a ha)
  refine ⟨?_, ?_, ?_, ?_⟩
  · simp [deleteName, hfn]
  · simp [deleteWishlist, hfw]
  · simp [deleteBets, hfb]
  · simp [deleteOffers, hfo]

/-- C4 (witness). -/
theorem c4_delete_missing_id_witness :
    deleteName "2026" "2026" [⟨"1", "Mia", 0, 0, .map []⟩] "9" =
      (200, [⟨"1", "Mia", 0, 0, .map []⟩]) ∧
    deleteWishlist "2026" "2026"
      [⟨"3", "Crib", "http://x", "", "", false, none, "d"⟩] "9" =
      (404, [⟨"3", "Crib", "http://x", "", "", false, none, "d"⟩]) ∧
    deleteBets "2026" "2026"
      [⟨"4", "Ann", "2026-08-20", "12:00", some 3500, some 52, "t"⟩] "9" =
      (404, [⟨"4", "Ann", "2026-08-20", "12:00", some 3500, some 52, "t"⟩]) ∧
    deleteOffers "2026" "2026"
      [⟨"5", "Bea", some "b@x.de", "Stroller", "/uploads/5.jpg", "t"⟩] "9" =
      (404, [⟨"5", "Bea", some "b@x.de", "Stroller", "/uploads/5.jpg", "t"⟩]) :=
  c4_delete_missing_id "2026" "9"
    [⟨"1", "Mia", 0, 0, .map []⟩]
    [⟨"3", "Crib", "http://x", "", "", false, none, "d"⟩]
    [⟨"4", "Ann", "2026-08-20", "12:00", some 3500, some 52, "t"⟩]
    [⟨"5", "Bea", some "b@x.de", "Stroller", "/uploads/5.jpg", "t"⟩]
    (by decide) (by decide) (by decide) (by decide)

/-- C5 (counterexample): voter "9.9.9.9" with no prior entry on a fresh
record votes "up" then "down"; the "down" step changes both counters
(votes 1 to 0 and dislikes 0 to 1), refuting "changes exactly one of
votes/dislikes by one at each step, leaving the other unchanged". -/
theorem c5_counterexample :
    (applyVote (applyVote ⟨"1", "Mia", 0, 0, .map []⟩ "9.9.9.9" "up")
        "9.9.9.9" "down").votes ≠
      (applyVote ⟨"1", "Mia", 0, 0, .map []⟩ "9.9.9.9" "up").votes ∧
    (applyVote (applyVote ⟨"1", "Mia", 0, 0, .map []⟩ "9.9.9.9" "up")
        "9.9.9.9" "down").dislikes ≠
      (applyVote ⟨"1", "Mia", 0, 0, .map []⟩ "9.9.9.9" "up").dislikes := by
  constructor
  · decide
  · decide

/-- C5 (amended): for every mapping-form record with no prior entry for a
resolvable voter A, the sequence A votes "up", "down", "none" behaves as:
after "up", votes is one more and dislikes unchanged; after "down", votes
is back to its starting value and dislikes one more (this step moves both
counters); after "none", the record equals its original value exactly —
counters restored and A absent from the ledger. -/
theorem c5_up_down_none (r : NameRec) (m : List (String × String))
    (A : String) (hm : r.votedIPs = .map m) (hA : A ≠ "unknown")
    (hnew : lookupIP m A = none) :
    (applyVote r A "up").votes = r.votes + 1 ∧
    (applyVote r A "up").dislikes = r.dislikes ∧
    (applyVote (applyVote r A "up") A "down").votes = r.votes ∧
    (applyVote (applyVote r A "up") A "down").dislikes = r.dislikes + 1 ∧
    applyVote (applyVote (applyVote r A "up") A "down") A "none" = r := by
  cases r with
  | mk i nm v d vb =>
      replace hm : vb = VotedBy.map m := hm
      subst hm
      have h1 : applyVote ⟨i, nm, v, d, .map m⟩ A "up" =
          ⟨i, nm, v + 1, d, .map (setIP m A "up")⟩ := by
        rw [applyVote_of_lookup_none _ m A "up" rfl hnew]
        simp
      have h2 : applyVote ⟨i, nm, v + 1, d, .map (setIP m A "up")⟩
          A "down" = ⟨i, nm, v, d + 1, .map (setIP m A "down")⟩ := by
        rw [applyVote_of_lookup_some _ (setIP m A "up") A "down" "up" rfl hA
          (lookupIP_setIP_self m A "up") (Or.inl rfl)]
        simp [setIP_setIP]
      have h3 : applyVote ⟨i, nm, v, d + 1, .map (setIP m A "down")⟩
          A "none" = ⟨i, nm, v, d, .map m⟩ := by
        rw [applyVote_of_lookup_some _ (setIP m A "down") A "none" "down"
          rfl hA (lookupIP_setIP_self m A "down") (Or.inr rfl)]
        simp [delIP_setIP_of_none m A "down" hnew]
      rw [h1, h2, h3]
      simp [h1, h2]

/-- C5 (witness). -/
theorem c5_up_down_none_witness :
    (applyVote ⟨"1", "Mia", 2, 3, .map [("8.8.8.8", "down")]⟩
      "9.9.9.9" "up").votes = 2 + 1 ∧
    (applyVote ⟨"1", "Mia", 2, 3, .map [("8.8.8.8", "down")]⟩
      "9.9.9.9" "up").dislikes = 3 ∧
    (applyVote (applyVote ⟨"1", "Mia", 2, 3, .map [("8.8.8.8", "down")]⟩
      "9.9.9.9" "up") "9.9.9.9" "down").votes = 2 ∧
    (applyVote (applyVote ⟨"1", "Mia", 2, 3, .map [("8.8.8.8", "down")]⟩
      "9.9.9.9" "up") "9.9.9.9" "down").dislikes = 3 + 1 ∧
    applyVote (applyVote (applyVote
      ⟨"1", "Mia", 2, 3, .map [("8.8.8.8", "down")]⟩
      "9.9.9.9" "up") "9.9.9.9" "down") "9.9.9.9" "none" =
      ⟨"1", "Mia", 2, 3, .map [("8.8.8.8", "down")]⟩ :=
  c5_up_down_none ⟨"1", "Mia", 2, 3, .map [("8.8.8.8", "down")]⟩
    [("8.8.8.8", "down")] "9.9.9.9" (by decide) (by decide) (by decide)

/-- C6: for every record whose ledger is still the legacy array form, the
vote mutation first converts it to the mapping form in which a key is bound
(to "up") exactly when it occurs in the legacy array — the whole mutation
equals the mutation on the converted record, and the persisted result is in
mapping form; a missing ledger is initialized to the empty mapping. -/
theorem c6_legacy_conversion (r : NameRec) (ips : List String)
    (ip ty k : String) (hm : r.votedIPs = .legacy ips) :
    (lookupIP (normalizeVotedBy r.votedIPs) k =
      if k ∈ ips then some "up" else none) ∧
    applyVote r ip ty =
      applyVote { r with votedIPs := .map (normalizeVotedBy r.votedIPs) }
        ip ty ∧
    (∃ m2, (applyVote r ip ty).votedIPs = .map m2) ∧
    normalizeVotedBy .missing = [] := by
  refine ⟨?_, applyVote_normalize r ip ty, applyVote_votedIPs_map r ip ty,
    rfl⟩
  rw [hm]
  simp [normalizeVotedBy, lookupIP_legacyFold, lookupIP]

/-- C6 (witness). -/
theorem c6_legacy_conversion_witness :
    (lookupIP (normalizeVotedBy
        (⟨"1", "Mia", 2, 0, .legacy ["a", "b"]⟩ : NameRec).votedIPs) "a" =
      if "a" ∈ ["a", "b"] then some "up" else none) ∧
    applyVote ⟨"1", "Mia", 2, 0, .legacy ["a", "b"]⟩ "c" "up" =
      applyVote ⟨"1", "Mia", 2, 0, .map (normalizeVotedBy
        (⟨"1", "Mia", 2, 0, .legacy ["a", "b"]⟩ : NameRec).votedIPs)⟩
        "c" "up" ∧
    (∃ m2, (applyVote ⟨"1", "Mia", 2, 0, .legacy ["a", "b"]⟩
      "c" "up").votedIPs = .map m2) ∧
    normalizeVotedBy .missing = [] :=
  c6_legacy_conversion ⟨"1", "Mia", 2, 0, .legacy ["a", "b"]⟩
    ["a", "b"] "c" "up" "a" (by decide)

/-- C7: the offers listing without the correct admin PIN emits, for every
record, a JSON object containing no `email` key at all, even when the
stored record has one; with the correct PIN it emits the stored records
verbatim, each with its `email` value whenever present. -/
theorem c7_offers_email (adminPin pin : String) (offers : List Offer)
    (j : List (String × String)) (o : Offer) (e : String) :
    (pin ≠ adminPin → j ∈ getOffers adminPin pin offers →
      "email" ∉ j.map Prod.fst) ∧
    (pin = adminPin → getOffers adminPin pin offers =
      offers.map offerJson) ∧
    (o.email = some e → ("email", e) ∈ offerJson o) := by
  refine ⟨?_, ?_, ?_⟩
  · intro hne hj
    rw [getOffers, if_neg hne] at hj
    rw [List.map_map] at hj
    rcases List.mem_map.mp hj with ⟨o2, _, hrfl⟩
    subst hrfl
    simp [offerJson, publicOffer, Function.comp]
  · intro he
    rw [getOffers, if_pos he]
  · intro he
    simp [offerJson, he]

/-- C7 (witness). -/
theorem c7_offers_email_witness :
    ((("0000" : String) ≠ "2026") →
      offerJson (publicOffer ⟨"5", "Bea", some "b@x.de", "Stroller",
        "/uploads/5.jpg", "t"⟩) ∈
        getOffers "2026" "0000"
          [⟨"5", "Bea", some "b@x.de", "Stroller", "/uploads/5.jpg", "t"⟩] →
      "email" ∉ (offerJson (publicOffer ⟨"5", "Bea", some "b@x.de",
        "Stroller", "/uploads/5.jpg", "t"⟩)).map Prod.fst) ∧
    ((("0000" : String) = "2026") →
      getOffers "2026" "0000"
        [⟨"5", "Bea", some "b@x.de", "Stroller", "/uploads/5.jpg", "t"⟩] =
      [⟨"5", "Bea", some "b@x.de", "Stroller", "/uploads/5.jpg",
        "t"⟩].map offerJson) ∧
    ((⟨"5", "Bea", some "b@x.de", "Stroller", "/uploads/5.jpg",
        "t"⟩ : Offer).email = some "b@x.de" →
      ("email", "b@x.de") ∈ offerJson ⟨"5", "Bea", some "b@x.de",
        "Stroller", "/uploads/5.jpg", "t"⟩) :=
  c7_offers_email "2026" "0000"
    [⟨"5", "Bea", some "b@x.de", "Stroller", "/uploads/5.jpg", "t"⟩]
    (offerJson (publicOffer ⟨"5", "Bea", some "b@x.de", "Stroller",
      "/uploads/5.jpg", "t"⟩))
    ⟨"5", "Bea", some "b@x.de", "Stroller", "/uploads/5.jpg", "t"⟩
    "b@x.de"

/-- C8: votes from the unresolvable identity "unknown" bypass duplicate
prevention entirely: on every record, an "up" (resp. "down") vote from
"unknown" increments the matching counter by one and leaves the other
unchanged, with no compensating decrement, so n successive such votes add
exactly n — unlimited voting. -/
theorem c8_unknown_unlimited (r : NameRec) (n : Nat) :
    (applyVote r "unknown" "up").votes = r.votes + 1 ∧
    (applyVote r "unknown" "up").dislikes = r.dislikes ∧
    (applyVote r "unknown" "down").dislikes = r.dislikes + 1 ∧
    (applyVote r "unknown" "down").votes = r.votes ∧
    (voteN "unknown" "up" n r).votes = r.votes + n ∧
    (voteN "unknown" "up" n r).dislikes = r.dislikes ∧
    (voteN "unknown" "down" n r).dislikes = r.dislikes + n ∧
    (voteN "unknown" "down" n r).votes = r.votes := by
  have hu : ∀ s : NameRec, (applyVote s "unknown" "up").votes = s.votes + 1
      ∧ (applyVote s "unknown" "up").dislikes = s.dislikes := by
    intro s
    rw [applyVote_unknown]
    simp
  have hdn : ∀ s : NameRec,
      (applyVote s "unknown" "down").dislikes = s.dislikes + 1 ∧
      (applyVote s "unknown" "down").votes = s.votes := by
    intro s
    rw [applyVote_unknown]
    simp
  refine ⟨(hu r).1, (hu r).2, (hdn r).1, (hdn r).2, ?_, ?_, ?_, ?_⟩
  · induction n with
    | zero => simp [voteN]
    | succ k ih =>
        simp only [voteN, (hu (voteN "unknown" "up" k r)).1, ih]
        omega
  · induction n with
    | zero => simp [voteN]
    | succ k ih =>
        simp only [voteN, (hu (voteN "unknown" "up" k r)).2, ih]
  · induction n with
    | zero => simp [voteN]
    | succ k ih =>
        simp only [voteN, (hdn (voteN "unknown" "down" k r)).1, ih]
        omega
  · induction n with
    | zero => simp [voteN]
    | succ k ih =>
        simp only [voteN, (hdn (voteN "unknown" "down" k r)).2, ih]

/-- C9 (counterexample): the body with weight "abc" and size "5" passes
every required-field and length check (201 created), yet the created bet's
weight is `parseInt("abc")`, i.e. `NaN` (modelled `none`), not an integer —
refuting "integer values for every accepted request body". -/
theorem c9_counterexample :
    (postBets "a" "2026-08-20" "12:00" "abc" "5" [] "id1" "ts").status =
      201 ∧
    (postBets "a" "2026-08-20" "12:00" "abc" "5" [] "id1" "ts").bet.map
      (fun b => b.weight) = some none := by
  constructor
  · decide
  · decide

/-- C9 (amended): every bet created by a request passing the
required-field and length checks stores `parseInt` of the supplied weight
and size; these are integers precisely when the leading-integer parse
succeeds — in particular, whenever both parses succeed the created record
has those integer values (201, record stored). -/
theorem c9_bet_ints (name date time weight size : String)
    (list : List BetRec) (newId ts : String) (w z : Int)
    (h1 : name ≠ "") (h2 : date ≠ "") (h3 : weight ≠ "") (h4 : size ≠ "")
    (h5 : name.length ≤ 50)
    (hw : jsParseInt weight = some w) (hz : jsParseInt size = some z) :
    (postBets name date time weight size list newId ts).status = 201 ∧
    (postBets name date time weight size list newId ts).bet.map
      (fun b => b.weight) = some (some w) ∧
    (postBets name date time weight size list newId ts).bet.map
      (fun b => b.size) = some (some z) := by
  have h6 : ¬ name.length > 50 := by omega
  simp [postBets, h1, h2, h3, h4, h6, hw, hz]

/-- C9 (witness). -/
theorem c9_bet_ints_witness :
    (postBets "Ann" "2026-08-20" "12:00" "3500" "52" [] "id1"
      "ts").status = 201 ∧
    (postBets "Ann" "2026-08-20" "12:00" "3500" "52" [] "id1" "ts").bet.map
      (fun b => b.weight) = some (some 3500) ∧
    (postBets "Ann" "2026-08-20" "12:00" "3500" "52" [] "id1" "ts").bet.map
      (fun b => b.size) = some (some 52) :=
  c9_bet_ints "Ann" "2026-08-20" "12:00" "3500" "52" [] "id1" "ts"
    3500 52 (by decide) (by decide) (by decide) (by decide) (by decide)
    (by decide) (by decide)

/-- C10: for every existing mapping-form name record and every voter
identity with no entry in its ledger, a vote request with type "none"
succeeds with status 200 and leaves the record — and the stored
collection — entirely unchanged: withdrawal without a prior vote is not an
error. -/
theorem c10_none_noop (names : List NameRec) (n : NameRec)
    (m : List (String × String)) (ip rid : String)
    (hid : rid ≠ "")
    (hfind : names.find? (fun r => r.id == rid) = some n)
    (hm : n.votedIPs = .map m) (hnew : lookupIP m ip = none) :
    handleVote names ip rid "none" = ⟨200, some n, names⟩ := by
  have hfix : applyVote n ip "none" = n := by
    rw [applyVote_of_lookup_none n m ip "none" hm hnew, if_pos rfl,
      delIP_of_lookup_none m ip hnew, ← hm]
  simp [handleVote, hid, hfind, hfix, replaceFirst_self names rid n hfind]

/-- C10 (witness). -/
theorem c10_none_noop_witness :
    handleVote [⟨"1", "Mia", 1, 0, .map [("8.8.8.8", "up")]⟩]
      "9.9.9.9" "1" "none" =
    ⟨200, some ⟨"1", "Mia", 1, 0, .map [("8.8.8.8", "up")]⟩,
      [⟨"1", "Mia", 1, 0, .map [("8.8.8.8", "up")]⟩]⟩ :=
  c10_none_noop [⟨"1", "Mia", 1, 0, .map [("8.8.8.8", "up")]⟩]
    ⟨"1", "Mia", 1, 0, .map [("8.8.8.8", "up")]⟩ [("8.8.8.8", "up")]
    "9.9.9.9" "1" (by decide) (by decide) (by decide) (by decide)
